import Mathlib

/-!
Shallow embedding of the Twenty Questions game server (Express routes over an
in-memory session store) and of its LLM guess-judging helpers, with theorems
checking the natural-language specification against the code.

Conventions of the embedding:

* Strings are Lean `String`s; the character-level normalizers used by the
  guess judges are modelled on `List Char` with character classes given by
  ASCII code points, matching the JavaScript regexes `[^\w\s]` and `\s` on
  the ASCII range (`\w` = letters, digits, underscore; `\s` = space, tab,
  newline, carriage return, vertical tab, form feed) and
  `String.prototype.toLowerCase` on ASCII (`Char.toLower`).
* Each Express route handler becomes a pure step function from server state
  (the single `currentGameSessionId` slot holding the current session, as in
  `registerRoutes`) to `Except ApiError`; returning `.error` models an early
  `res.status(400)` return, which performs no session mutation.
* The answering / judging LLM calls are modelled by oracle parameters: the
  value the awaited call would produce is passed in.  A result that is
  independent of the oracle is one produced without consulting the LLM.
* Times (`Date.now()`) are explicit `Int` parameters.
-/

namespace TwentyQ

/-! ## Character classes and normalizers (server/openai.ts, server/gemini.ts) -/

/-- JavaScript `\s` on the ASCII range: space, tab, newline, vertical tab,
form feed, carriage return. -/
def isSpc (c : Char) : Bool :=
  c.toNat = 32 || c.toNat = 9 || c.toNat = 10 || c.toNat = 13 ||
  c.toNat = 11 || c.toNat = 12

/-- JavaScript `\w`: ASCII letters, digits and underscore. -/
def isWordChar (c : Char) : Bool :=
  (97 ≤ c.toNat && c.toNat ≤ 122) || (65 ≤ c.toNat && c.toNat ≤ 90) ||
  (48 ≤ c.toNat && c.toNat ≤ 57) || c.toNat = 95

/-- A character surviving `replace(/[^\w\s]/g, '')`. -/
def keepChar (c : Char) : Bool :=
  isWordChar c || isSpc c

/-- `String.prototype.trim()`: drop whitespace from both ends. -/
def trimChars (l : List Char) : List Char :=
  List.rdropWhile isSpc (l.dropWhile isSpc)

/-- Worker for `collapseSpaces`: the flag records whether the previous
character was whitespace (i.e. a run is in progress, whose single output
space was already emitted). -/
def collapseAux : Bool → List Char → List Char
  | _, [] => []
  | inRun, c :: rest =>
    if isSpc c then
      if inRun then collapseAux true rest
      else ' ' :: collapseAux true rest
    else c :: collapseAux false rest

/-- `replace(/\s+/g, ' ')`: every maximal whitespace run becomes one space. -/
def collapseSpaces (l : List Char) : List Char :=
  collapseAux false l

/-- The `normalizeText` helper of `checkFinalGuessGemini` (gemini.ts):
lowercase, trim, strip the non-word non-space characters, collapse
whitespace runs, trim again. -/
def normalizeChars (l : List Char) : List Char :=
  trimChars (collapseSpaces ((trimChars (l.map Char.toLower)).filter keepChar))

/-- String-level `normalizeText`. -/
def normalizeText (s : String) : String :=
  ⟨normalizeChars s.data⟩

/-- The weaker normalization used by `checkFinalGuess` (openai.ts):
`word.toLowerCase().trim()` only. -/
def lowerTrim (s : String) : String :=
  ⟨trimChars (s.data.map Char.toLower)⟩

/-! ## Guess judging (checkFinalGuess / checkFinalGuessGemini) -/

structure GuessResult where
  correct : Bool
  feedback : String
deriving DecidableEq, Repr

def winFeedback (word : String) : String :=
  "Yes, it's " ++ word ++ "! You win!"

def loseFeedback (word : String) : String :=
  "No, that's not right. The word was " ++ word ++ ". You lose."

/-- `checkFinalGuess` (openai.ts).  `equivJudge` is the LLM semantic
equivalence call: `some b` models a parsed `{correct: b}` reply, `none`
models the call failing (the `catch` branch, which falls back to the exact
comparison). -/
def checkFinalGuess (word guess : String) (equivJudge : Option Bool) : GuessResult :=
  if lowerTrim guess = lowerTrim word then
    { correct := true, feedback := winFeedback word }
  else
    match equivJudge with
    | some b =>
      { correct := b, feedback := if b then winFeedback word else loseFeedback word }
    | none =>
      let isCorrect := lowerTrim guess = lowerTrim word
      { correct := isCorrect
        feedback := if isCorrect then winFeedback word else loseFeedback word }

/-- `checkFinalGuessGemini` (gemini.ts).  The correctness flag is computed
from `normalizeText` before the model is contacted; the LLM (`feedbackGen`)
is consulted only for the feedback text, `none` modelling its failure. -/
def checkFinalGuessGemini (word guess : String) (feedbackGen : Option String) : GuessResult :=
  let isCorrect := normalizeText word = normalizeText guess
  match feedbackGen with
  | some t => { correct := isCorrect, feedback := t }
  | none =>
    { correct := isCorrect
      feedback :=
        if isCorrect then "Congratulations! You correctly guessed the word!"
        else "Sorry, the correct word was \"" ++ word ++ "\". Better luck next time!" }

/-! ## Sessions and the in-memory store (storage.ts) -/

/-- One entry of `session.questions`. -/
structure QuestionEntry where
  question : String
  answer : String
  isLLMQuestion : Bool
deriving DecidableEq, Repr

/-- `GameSession` of storage.ts. -/
structure GameSession where
  id : String
  word : String
  category : String
  difficulty : String
  gameMode : String
  questionCount : Nat
  questions : List QuestionEntry
  active : Bool
  hints : List String
  hintsUsed : Nat
  startTime : Int
  pauseTime : Option Int
deriving DecidableEq, Repr

/-- `MemStorage.createGameSession`. -/
def createGameSession (word category difficulty gameMode : String)
    (hints : List String) (id : String) (now : Int) : GameSession :=
  { id := id, word := word, category := category, difficulty := difficulty
    gameMode := gameMode, questionCount := 0, questions := [], active := true
    hints := hints, hintsUsed := 0, startTime := now, pauseTime := none }

/-- `MemStorage.endGameSession`: marks the session inactive (the `win` flag
is accepted and discarded, as in the source). -/
def endGameSession (s : GameSession) (_win : Bool) : GameSession :=
  { s with active := false }

/-- The mutable server state: the single `currentGameSessionId` slot together
with the session it designates. -/
structure ServerState where
  current : Option GameSession
deriving DecidableEq, Repr

/-- The 400-level error responses of the routes.  `noHintsAvailable` covers
both hint error messages ("No hints available for this word" and "No more
hints available"). -/
inductive ApiError where
  | emptyInput
  | noActiveSession
  | maxQuestionsReached
  | noHintsAvailable
  | wrongMode
deriving DecidableEq, Repr

/-! ## Route handlers (routes.ts) -/

/-- POST /api/game/start: select a word (parameters stand for the word
selector's output), create a fresh session, point the slot at it. -/
def startStep (_st : ServerState) (word category difficulty gameMode : String)
    (hints : List String) (id : String) (now : Int) : ServerState × GameSession :=
  let s := createGameSession word category difficulty gameMode hints id now
  ({ current := some s }, s)

/-- POST /api/game/ask.  `answer` is the oracle for the awaited
`answerQuestion` LLM call. -/
def askStep (answer : String) (st : ServerState) (question : String) :
    Except ApiError (ServerState × String) :=
  if question = "" then .error .emptyInput
  else
    match st.current with
    | none => .error .noActiveSession
    | some s =>
      if s.active = false then .error .noActiveSession
      else if 20 ≤ s.questionCount then .error .maxQuestionsReached
      else
        .ok ({ current := some
                 { s with questionCount := s.questionCount + 1
                          questions := s.questions ++
                            [{ question := question, answer := answer
                               isLLMQuestion := false }] } },
             answer)

/-- POST /api/game/answer-llm (v2 turn).  `answer` is the oracle for the
`simulateHumanAnswer` call. -/
def answerLlmStep (answer : String) (st : ServerState) (question : String) :
    Except ApiError (ServerState × String) :=
  if question = "" then .error .emptyInput
  else
    match st.current with
    | none => .error .noActiveSession
    | some s =>
      if s.active = false then .error .noActiveSession
      else if s.gameMode ≠ "v2" then .error .wrongMode
      else if 20 ≤ s.questionCount then .error .maxQuestionsReached
      else
        .ok ({ current := some
                 { s with questionCount := s.questionCount + 1
                          questions := s.questions ++
                            [{ question := question, answer := answer
                               isLLMQuestion := true }] } },
             answer)

/-- POST /api/game/hint: returns the hint at index `hintsUsed` and advances
the counter; the response carries the new counter and the total. -/
def hintStep (st : ServerState) :
    Except ApiError (ServerState × (String × Nat × Nat)) :=
  match st.current with
  | none => .error .noActiveSession
  | some s =>
    if s.active = false then .error .noActiveSession
    else if s.hints.length = 0 then .error .noHintsAvailable
    else if s.hints.length ≤ s.hintsUsed then .error .noHintsAvailable
    else
      .ok ({ current := some { s with hintsUsed := s.hintsUsed + 1 } },
           (s.hints.getD s.hintsUsed "", s.hintsUsed + 1, s.hints.length))

/-- The pause-state update of POST /api/game/pause: on pause record the
timestamp, on resume fold the pause duration into `startTime` and clear it. -/
def pauseSession (s : GameSession) (pause : Bool) (now : Int) : GameSession :=
  if pause then { s with pauseTime := some now }
  else
    match s.pauseTime with
    | some pt => { s with startTime := s.startTime + (now - pt), pauseTime := none }
    | none => s

/-- POST /api/game/pause. -/
def pauseStep (st : ServerState) (pause : Bool) (now : Int) :
    Except ApiError (ServerState × Bool) :=
  match st.current with
  | none => .error .noActiveSession
  | some s =>
    if s.active = false then .error .noActiveSession
    else .ok ({ current := some (pauseSession s pause now) }, pause)

/-- POST /api/game/guess: judge the guess (`equivJudge` is the judge's LLM
oracle), end the session, clear the slot, reveal the word. -/
def guessStep (equivJudge : Option Bool) (st : ServerState) (guess : String) :
    Except ApiError (ServerState × GuessResult × String) :=
  if guess = "" then .error .emptyInput
  else
    match st.current with
    | none => .error .noActiveSession
    | some s =>
      if s.active = false then .error .noActiveSession
      else
        .ok ({ current := none }, checkFinalGuess s.word guess equivJudge, s.word)

/-- POST /api/game/stop: if a current session exists, end it (as a non-win)
and clear the slot; respond `{success: true}` in every case.  The second
component is the `success` flag, the third the ended session, if any. -/
def stopStep (st : ServerState) : ServerState × Bool × Option GameSession :=
  match st.current with
  | some s => ({ current := none }, true, some (endGameSession s false))
  | none => ({ current := none }, true, none)

/-- The elapsed game time reported by GET /api/stats, in milliseconds
(`currentTime - session.startTime`); the route floors it to seconds. -/
def elapsedMs (s : GameSession) (now : Int) : Int :=
  now - s.startTime

/-! ## Reachable server states

One constructor per session-mutating route; a state is reachable when some
sequence of route calls (with arbitrary request inputs and LLM replies)
produces it from the initial empty slot. -/

inductive Reachable : ServerState → Prop where
  | init : Reachable { current := none }
  | start (st : ServerState) (w c d m : String) (hints : List String)
      (id : String) (now : Int) :
      Reachable st → Reachable (startStep st w c d m hints id now).1
  | ask (a : String) (st : ServerState) (q : String) (out : ServerState × String) :
      Reachable st → askStep a st q = .ok out → Reachable out.1
  | answerLlm (a : String) (st : ServerState) (q : String) (out : ServerState × String) :
      Reachable st → answerLlmStep a st q = .ok out → Reachable out.1
  | hint (st : ServerState) (out : ServerState × (String × Nat × Nat)) :
      Reachable st → hintStep st = .ok out → Reachable out.1
  | pause (st : ServerState) (p : Bool) (now : Int) (out : ServerState × Bool) :
      Reachable st → pauseStep st p now = .ok out → Reachable out.1
  | guess (j : Option Bool) (st : ServerState) (g : String)
      (out : ServerState × GuessResult × String) :
      Reachable st → guessStep j st g = .ok out → Reachable out.1
  | stop (st : ServerState) : Reachable st → Reachable (stopStep st).1

/-! ## Client statistics (EnhancedGameContainer) -/

/-- JavaScript `Math.round` on a non-negative rational `num / den`:
round half up, i.e. `⌊num / den + 1 / 2⌋`. -/
def jsRound (num den : Nat) : Nat :=
  (2 * num + den) / (2 * den)

/-- The aggregate statistics kept by the client (`GameStats`, without the
completion-time list, which no claim concerns). -/
structure GameStats where
  gamesPlayed : Nat
  gamesWon : Nat
  averageQuestions : Nat
  bestScore : Nat
deriving DecidableEq, Repr

/-- `defaultStats` of EnhancedGameContainer. -/
def defaultStats : GameStats :=
  { gamesPlayed := 0, gamesWon := 0, averageQuestions := 0, bestScore := 20 }

/-- The stats update performed on game end (`makeGuessMutation.onSuccess`
and `handleLLMGameEnd` share this computation): the new average folds the
new `questionCount` into the PREVIOUS (already rounded) average. -/
def updateStatsOnGameEnd (st : GameStats) (correct : Bool) (questionCount : Nat) :
    GameStats :=
  { gamesPlayed := st.gamesPlayed + 1
    gamesWon := if correct then st.gamesWon + 1 else st.gamesWon
    averageQuestions :=
      jsRound (st.averageQuestions * st.gamesPlayed + questionCount) (st.gamesPlayed + 1)
    bestScore :=
      if correct && questionCount < st.bestScore then questionCount else st.bestScore }

/-- The statistics after a sequence of completed sessions, each given by
its win flag and question count. -/
def statsAfter (results : List (Bool × Nat)) : GameStats :=
  results.foldl (fun st r => updateStatsOnGameEnd st r.1 r.2) defaultStats

/-- What the specification asserts `averageQuestions` equals: the mean of
`questionCount` over all played sessions, rounded to the nearest integer. -/
def roundedMeanQuestions (results : List (Bool × Nat)) : Nat :=
  jsRound (results.map Prod.snd).sum results.length

/-! ## Concrete sessions used by witnesses and counterexamples -/

/-- A fresh v1 session over the word "dog" with two hints. -/
def sampleSession : GameSession :=
  createGameSession "dog" "animal" "easy" "v1" ["h1", "h2"] "g1" 0

/-- `sampleSession` after the pause route recorded `pauseTime = 5`. -/
def pausedSession : GameSession :=
  { sampleSession with pauseTime := some 5 }

/-- `sampleSession` with the question budget exhausted. -/
def maxedSession : GameSession :=
  { sampleSession with questionCount := 20 }

/-- `sampleSession` after one successful ask ("Is it alive?" answered
"Yes"). -/
def askedSession : GameSession :=
  { sampleSession with
    questionCount := 1
    questions := [{ question := "Is it alive?", answer := "Yes"
                    isLLMQuestion := false }] }

/-! ## Characterizations of successful route calls -/

theorem askStep_ok_elim {a : String} {st : ServerState} {q : String}
    {out : ServerState × String} (h : askStep a st q = .ok out) :
    ∃ s, st.current = some s ∧ q ≠ "" ∧ s.active = true ∧ s.questionCount < 20 ∧
      out = ({ current := some
                 { s with questionCount := s.questionCount + 1
                          questions := s.questions ++
                            [{ question := q, answer := a, isLLMQuestion := false }] } },
             a) := by
  unfold askStep at h
  split at h
  · simp at h
  next hq =>
    split at h
    · simp at h
    next s hcur =>
      split at h
      · simp at h
      next hact =>
        split at h
        · simp at h
        next hcnt =>
          simp only [Except.ok.injEq] at h
          exact ⟨s, hcur, hq, by simpa using hact, by omega, h.symm⟩

theorem answerLlmStep_ok_elim {a : String} {st : ServerState} {q : String}
    {out : ServerState × String} (h : answerLlmStep a st q = .ok out) :
    ∃ s, st.current = some s ∧ q ≠ "" ∧ s.active = true ∧ s.gameMode = "v2" ∧
      s.questionCount < 20 ∧
      out = ({ current := some
                 { s with questionCount := s.questionCount + 1
                          questions := s.questions ++
                            [{ question := q, answer := a, isLLMQuestion := true }] } },
             a) := by
  unfold answerLlmStep at h
  split at h
  · simp at h
  next hq =>
    split at h
    · simp at h
    next s hcur =>
      split at h
      · simp at h
      next hact =>
        split at h
        · simp at h
        next hm =>
          split at h
          · simp at h
          next hcnt =>
            simp only [Except.ok.injEq] at h
            exact ⟨s, hcur, hq, by simpa using hact, by simpa using hm, by omega, h.symm⟩

theorem hintStep_ok_elim {st : ServerState} {out : ServerState × (String × Nat × Nat)}
    (h : hintStep st = .ok out) :
    ∃ s, st.current = some s ∧ s.active = true ∧ s.hintsUsed < s.hints.length ∧
      out = ({ current := some { s with hintsUsed := s.hintsUsed + 1 } },
             (s.hints.getD s.hintsUsed "", s.hintsUsed + 1, s.hints.length)) := by
  unfold hintStep at h
  split at h
  · simp at h
  next s hcur =>
    split at h
    · simp at h
    next hact =>
      split at h
      · simp at h
      next hz =>
        split at h
        · simp at h
        next hle =>
          simp only [Except.ok.injEq] at h
          exact ⟨s, hcur, by simpa using hact, by omega, h.symm⟩

theorem pauseStep_ok_elim {st : ServerState} {p : Bool} {now : Int}
    {out : ServerState × Bool} (h : pauseStep st p now = .ok out) :
    ∃ s, st.current = some s ∧ s.active = true ∧
      out = ({ current := some (pauseSession s p now) }, p) := by
  unfold pauseStep at h
  split at h
  · simp at h
  next s hcur =>
    split at h
    · simp at h
    next hact =>
      simp only [Except.ok.injEq] at h
      exact ⟨s, hcur, by simpa using hact, h.symm⟩

theorem guessStep_ok_current {j : Option Bool} {st : ServerState} {g : String}
    {out : ServerState × GuessResult × String} (h : guessStep j st g = .ok out) :
    out.1 = { current := none } := by
  unfold guessStep at h
  split at h
  · simp at h
  next hg =>
    split at h
    · simp at h
    next s hcur =>
      split at h
      · simp at h
      next hact =>
        simp only [Except.ok.injEq] at h
        rw [← h]

/-- `pauseSession` touches only the timing fields. -/
theorem pauseSession_preserves (s : GameSession) (p : Bool) (now : Int) :
    (pauseSession s p now).questionCount = s.questionCount ∧
    (pauseSession s p now).questions = s.questions ∧
    (pauseSession s p now).active = s.active := by
  unfold pauseSession
  cases p with
  | true => exact ⟨rfl, rfl, rfl⟩
  | false =>
    cases s.pauseTime with
    | none => exact ⟨rfl, rfl, rfl⟩
    | some pt => exact ⟨rfl, rfl, rfl⟩

/-! ## C2: ask on a paused session -/

/-- C2, counterexample: the ask route never inspects `pauseTime`.  On a
session that is active but paused (`pauseTime = some 5`), ask does not fail
with an invalid-state error — it succeeds and mutates the session, contrary
to the claim. -/
theorem ask_while_paused_succeeds :
    pausedSession.active = true ∧ pausedSession.pauseTime = some 5 ∧
    askStep "Yes" { current := some pausedSession } "Is it alive?" =
      .ok ({ current := some
               { pausedSession with
                 questionCount := 1
                 questions := [{ question := "Is it alive?", answer := "Yes"
                                 isLLMQuestion := false }] } },
           "Yes") :=
  ⟨rfl, rfl, rfl⟩

/-- C2, amended: ask ignores the pause state entirely.  On any active
session with `questionCount < 20` and a non-empty question — paused or not,
and in particular both while paused and after a resume — ask succeeds,
appending the entry and incrementing the counter. -/
theorem ask_ignores_pause_state :
    ∀ a s q, s.active = true → s.questionCount < 20 → q ≠ "" →
      askStep a { current := some s } q =
        .ok ({ current := some
                 { s with questionCount := s.questionCount + 1
                          questions := s.questions ++
                            [{ question := q, answer := a, isLLMQuestion := false }] } },
             a) := by
  intro a s q hact hcnt hq
  unfold askStep
  rw [if_neg hq]
  dsimp only
  rw [if_neg (by simp [hact]), if_neg (by omega)]

/-- C2 amended, witness at the concrete paused session. -/
theorem ask_ignores_pause_state_witness :
    askStep "Yes" { current := some pausedSession } "Is it red?" =
      .ok ({ current := some
               { pausedSession with
                 questionCount := 1
                 questions := [{ question := "Is it red?", answer := "Yes"
                                 isLLMQuestion := false }] } },
           "Yes") := by
  have h := ask_ignores_pause_state "Yes" pausedSession "Is it red?" rfl (by decide) (by decide)
  exact h

/-! ## C4: ask at the 20-question limit -/

/-- C4: with `questionCount` already at least 20, ask fails with the
maximum-questions error (and, returning early, changes nothing); and a
successful ask never deactivates the session — the active flag stays true
until a later guess or stop. -/
theorem ask_at_limit_fails_and_never_terminates :
    (∀ a st q s, st.current = some s → s.active = true → q ≠ "" →
        20 ≤ s.questionCount → askStep a st q = .error .maxQuestionsReached) ∧
    (∀ a st q out, askStep a st q = .ok out →
        ∀ s', out.1.current = some s' → s'.active = true) := by
  constructor
  · intro a st q s hcur hact hq hcnt
    unfold askStep
    rw [if_neg hq, hcur]
    dsimp only
    rw [if_neg (by simp [hact]), if_pos hcnt]
  · intro a st q out h s' hcur'
    obtain ⟨s, _, _, hact, _, hout⟩ := askStep_ok_elim h
    rw [hout] at hcur'
    simp only [Option.some.injEq] at hcur'
    rw [← hcur']
    exact hact

/-- C4, witness: the 21st ask on a maxed-out session is rejected, and an
ask that succeeded (the first one on a fresh session) left the session
active. -/
theorem ask_at_limit_witness :
    askStep "Yes" { current := some maxedSession } "Is it alive?" =
      .error .maxQuestionsReached ∧
    ({ sampleSession with
       questionCount := 1
       questions := [{ question := "Is it alive?", answer := "Yes"
                       isLLMQuestion := false }] } : GameSession).active = true := by
  constructor
  · exact ask_at_limit_fails_and_never_terminates.1 "Yes"
      { current := some maxedSession } "Is it alive?" maxedSession rfl rfl
      (by decide) (by decide)
  · exact ask_at_limit_fails_and_never_terminates.2 "Yes"
      { current := some sampleSession } "Is it alive?"
      ({ current := some
           { sampleSession with
             questionCount := 1
             questions := [{ question := "Is it alive?", answer := "Yes"
                             isLLMQuestion := false }] } }, "Yes")
      rfl
      { sampleSession with
        questionCount := 1
        questions := [{ question := "Is it alive?", answer := "Yes"
                        isLLMQuestion := false }] }
      rfl

/-! ## C5: hints are issued in order until exhausted -/

/-- C5: on an active session, if `hintsUsed` is below the number of hints
the route returns the hint at index `hintsUsed` (so successive calls walk
the list in order) and increments the counter by one; otherwise — which
covers both an exhausted counter and an empty hint list — it fails with the
no-hints error, changing nothing. -/
theorem hint_returns_in_order_or_fails :
    ∀ st s, st.current = some s → s.active = true →
      (s.hintsUsed < s.hints.length →
        hintStep st = .ok ({ current := some { s with hintsUsed := s.hintsUsed + 1 } },
          (s.hints.getD s.hintsUsed "", s.hintsUsed + 1, s.hints.length))) ∧
      (s.hints.length ≤ s.hintsUsed → hintStep st = .error .noHintsAvailable) := by
  intro st s hcur hact
  constructor
  · intro hlt
    unfold hintStep
    rw [hcur]
    dsimp only
    rw [if_neg (by simp [hact]), if_neg (by omega), if_neg (by omega)]
  · intro hle
    unfold hintStep
    rw [hcur]
    dsimp only
    rw [if_neg (by simp [hact])]
    by_cases hz : s.hints.length = 0
    · rw [if_pos hz]
    · rw [if_neg hz, if_pos hle]

/-- C5, witness: first and second hints of the sample session in order,
then failure. -/
theorem hint_returns_in_order_witness :
    hintStep { current := some sampleSession } =
      .ok ({ current := some { sampleSession with hintsUsed := 1 } }, ("h1", 1, 2)) ∧
    hintStep { current := some { sampleSession with hintsUsed := 1 } } =
      .ok ({ current := some { sampleSession with hintsUsed := 2 } }, ("h2", 2, 2)) ∧
    hintStep { current := some { sampleSession with hintsUsed := 2 } } =
      .error .noHintsAvailable := by
  refine ⟨?_, ?_, ?_⟩
  · exact (hint_returns_in_order_or_fails { current := some sampleSession }
      sampleSession rfl rfl).1 (by decide)
  · exact (hint_returns_in_order_or_fails _ { sampleSession with hintsUsed := 1 }
      rfl rfl).1 (by decide)
  · exact (hint_returns_in_order_or_fails _ { sampleSession with hintsUsed := 2 }
      rfl rfl).2 (by decide)

/-! ## C6: pause/resume excludes the paused interval from elapsed time -/

/-- C6: pausing at `t1` and resuming at `t2 > t1` on an active session
advances `startTime` by exactly `t2 - t1` and clears `pauseTime`, so the
elapsed time the stats route later reports (`now - startTime`) is smaller
by exactly the paused interval. -/
theorem pause_resume_shifts_start_time :
    ∀ st s t1 t2, st.current = some s → s.active = true → t1 < t2 →
      pauseStep st true t1 = .ok ({ current := some (pauseSession s true t1) }, true) ∧
      pauseStep { current := some (pauseSession s true t1) } false t2 =
        .ok ({ current := some (pauseSession (pauseSession s true t1) false t2) }, false) ∧
      (pauseSession (pauseSession s true t1) false t2).startTime
        = s.startTime + (t2 - t1) ∧
      (pauseSession (pauseSession s true t1) false t2).pauseTime = none ∧
      ∀ now : Int, elapsedMs (pauseSession (pauseSession s true t1) false t2) now =
        elapsedMs s now - (t2 - t1) := by
  intro st s t1 t2 hcur hact _
  have h1 : pauseSession s true t1 = { s with pauseTime := some t1 } := by
    unfold pauseSession; rfl
  have h2 : pauseSession (pauseSession s true t1) false t2 =
      { s with startTime := s.startTime + (t2 - t1), pauseTime := none } := by
    rw [h1]; unfold pauseSession; rfl
  refine ⟨?_, ?_, ?_, ?_, ?_⟩
  · unfold pauseStep
    rw [hcur]
    dsimp only
    rw [if_neg (by simp [hact])]
  · unfold pauseStep
    dsimp only
    rw [if_neg (by rw [h1]; simp [hact])]
  · rw [h2]
  · rw [h2]
  · intro now
    unfold elapsedMs
    rw [h2]
    dsimp only
    omega

/-- C6, witness: pause at 5, resume at 9 on the sample session. -/
theorem pause_resume_witness :
    (pauseSession (pauseSession sampleSession true 5) false 9).startTime
      = sampleSession.startTime + (9 - 5) ∧
    (pauseSession (pauseSession sampleSession true 5) false 9).pauseTime = none := by
  have h := pause_resume_shifts_start_time { current := some sampleSession }
    sampleSession 5 9 rfl rfl (by decide)
  exact ⟨h.2.2.1, h.2.2.2.1⟩

/-! ## C7: validation of the question text -/

/-- C7, counterexample: a whitespace-only question (here a single space,
which trims to nothing) is NOT rejected — the route checks only for the
empty string, so the ask succeeds and the session is mutated, contrary to
the claim. -/
theorem whitespace_question_processed :
    trimChars " ".data = [] ∧
    askStep "Yes" { current := some sampleSession } " " =
      .ok ({ current := some
               { sampleSession with
                 questionCount := 1
                 questions := [{ question := " ", answer := "Yes"
                                 isLLMQuestion := false }] } },
           "Yes") :=
  ⟨rfl, rfl⟩

/-- C7, amended: only the literally empty question string is rejected; the
rejection happens before the session is consulted and before any LLM call
(the result does not depend on the answering oracle), and, returning
early, it leaves every session unchanged.  Whitespace-only questions are
not trimmed and are processed as ordinary questions. -/
theorem empty_question_rejected_before_llm :
    ∀ a b st, askStep a st "" = .error .emptyInput ∧ askStep a st "" = askStep b st "" := by
  intro a b st
  exact ⟨rfl, rfl⟩

/-! ## C10: stop always succeeds -/

/-- C10: the stop route succeeds whether or not a session exists — with no
current session it reports success rather than a no-active-session error;
with one it ends it (as a non-win) and clears the slot; and on the emptied
slot, ask, hint and guess all fail with the no-active-session error. -/
theorem stop_always_succeeds :
    ∀ st, (stopStep st).1 = { current := none } ∧ (stopStep st).2.1 = true ∧
      (∀ s, st.current = some s → (stopStep st).2.2 = some (endGameSession s false)) ∧
      (st.current = none → (stopStep st).2.2 = none) ∧
      (∀ a q, q ≠ "" → askStep a { current := none } q = .error .noActiveSession) ∧
      hintStep { current := none } = .error .noActiveSession ∧
      (∀ j g, g ≠ "" → guessStep j { current := none } g = .error .noActiveSession) := by
  intro st
  obtain ⟨cur⟩ := st
  refine ⟨?_, ?_, ?_, ?_, ?_, ?_, ?_⟩
  · cases cur <;> rfl
  · cases cur <;> rfl
  · intro s hs
    cases cur with
    | none => simp at hs
    | some s0 =>
      simp only [Option.some.injEq] at hs
      rw [← hs]
      rfl
  · intro h0
    cases cur with
    | none => rfl
    | some s0 => simp at h0
  · intro a q hq
    unfold askStep
    rw [if_neg hq]
  · rfl
  · intro j g hg
    unfold guessStep
    rw [if_neg hg]

/-- C10, witness: stopping with a session present clears the slot and ends
the session; the emptied slot then rejects ask, hint and guess. -/
theorem stop_always_succeeds_witness :
    (stopStep { current := some sampleSession }).1 = { current := none } ∧
    (stopStep { current := some sampleSession }).2.2
      = some (endGameSession sampleSession false) ∧
    askStep "Yes" { current := none } "Is it alive?" = .error .noActiveSession ∧
    hintStep { current := none } = .error .noActiveSession ∧
    guessStep none { current := none } "cat" = .error .noActiveSession := by
  have h := stop_always_succeeds { current := some sampleSession }
  exact ⟨h.1, h.2.2.1 sampleSession rfl, h.2.2.2.2.1 "Yes" "Is it alive?" (by decide),
         h.2.2.2.2.2.1, h.2.2.2.2.2.2 none "cat" (by decide)⟩


/-! ## C1: the question-count / question-log invariant -/

/-- C1: in every reachable server state the current session (when present)
has `questionCount` between 0 and 20 and equal to the length of its
question log; and each mutating route either appends exactly one entry and
increments the counter by one in the same update (ask, answer-llm), or
touches neither (hint, pause) — there is no partially-updated state. -/
theorem question_log_invariant :
    (∀ st, Reachable st → ∀ s, st.current = some s →
        s.questionCount ≤ 20 ∧ s.questionCount = s.questions.length) ∧
    (∀ a st q out, askStep a st q = .ok out → ∀ s s', st.current = some s →
        out.1.current = some s' → s'.questionCount = s.questionCount + 1 ∧
        s'.questions = s.questions ++
          [{ question := q, answer := out.2, isLLMQuestion := false }]) ∧
    (∀ a st q out, answerLlmStep a st q = .ok out → ∀ s s', st.current = some s →
        out.1.current = some s' → s'.questionCount = s.questionCount + 1 ∧
        s'.questions = s.questions ++
          [{ question := q, answer := out.2, isLLMQuestion := true }]) ∧
    (∀ st out, hintStep st = .ok out → ∀ s s', st.current = some s →
        out.1.current = some s' →
        s'.questionCount = s.questionCount ∧ s'.questions = s.questions) ∧
    (∀ st p now out, pauseStep st p now = .ok out → ∀ s s', st.current = some s →
        out.1.current = some s' →
        s'.questionCount = s.questionCount ∧ s'.questions = s.questions) := by
  refine ⟨?_, ?_, ?_, ?_, ?_⟩
  · intro st hr
    induction hr with
    | init => intro s hs; simp at hs
    | start st w c d m hints id now hst ih =>
      intro s hs
      simp only [startStep, Option.some.injEq] at hs
      rw [← hs]
      exact ⟨Nat.zero_le 20, rfl⟩
    | ask a st q out hst h ih =>
      intro s' hs'
      obtain ⟨s, hcur, _, _, hcnt, hout⟩ := askStep_ok_elim h
      have hinv := ih s hcur
      rw [hout] at hs'
      simp only [Option.some.injEq] at hs'
      rw [← hs']
      refine ⟨?_, ?_⟩
      · show s.questionCount + 1 ≤ 20
        omega
      · show s.questionCount + 1 =
          (s.questions ++
            [({ question := q, answer := a, isLLMQuestion := false } : QuestionEntry)]).length
        rw [List.length_append, ← hinv.2]
        rfl
    | answerLlm a st q out hst h ih =>
      intro s' hs'
      obtain ⟨s, hcur, _, _, _, hcnt, hout⟩ := answerLlmStep_ok_elim h
      have hinv := ih s hcur
      rw [hout] at hs'
      simp only [Option.some.injEq] at hs'
      rw [← hs']
      refine ⟨?_, ?_⟩
      · show s.questionCount + 1 ≤ 20
        omega
      · show s.questionCount + 1 =
          (s.questions ++
            [({ question := q, answer := a, isLLMQuestion := true } : QuestionEntry)]).length
        rw [List.length_append, ← hinv.2]
        rfl
    | hint st out hst h ih =>
      intro s' hs'
      obtain ⟨s, hcur, _, _, hout⟩ := hintStep_ok_elim h
      rw [hout] at hs'
      simp only [Option.some.injEq] at hs'
      rw [← hs']
      exact ih s hcur
    | pause st p now out hst h ih =>
      intro s' hs'
      obtain ⟨s, hcur, _, hout⟩ := pauseStep_ok_elim h
      rw [hout] at hs'
      simp only [Option.some.injEq] at hs'
      rw [← hs']
      have hp := pauseSession_preserves s p now
      rw [hp.1, hp.2.1]
      exact ih s hcur
    | guess j st g out hst h ih =>
      intro s' hs'
      rw [guessStep_ok_current h] at hs'
      simp at hs'
    | stop st hst ih =>
      intro s' hs'
      obtain ⟨cur⟩ := st
      cases cur <;> simp [stopStep] at hs'
  · intro a st q out h s s' hcur hcur'
    obtain ⟨s0, hc0, _, _, _, hout⟩ := askStep_ok_elim h
    rw [hc0] at hcur
    simp only [Option.some.injEq] at hcur
    rw [← hcur]
    rw [hout] at hcur'
    simp only [Option.some.injEq] at hcur'
    rw [← hcur', hout]
    exact ⟨rfl, rfl⟩
  · intro a st q out h s s' hcur hcur'
    obtain ⟨s0, hc0, _, _, _, _, hout⟩ := answerLlmStep_ok_elim h
    rw [hc0] at hcur
    simp only [Option.some.injEq] at hcur
    rw [← hcur]
    rw [hout] at hcur'
    simp only [Option.some.injEq] at hcur'
    rw [← hcur', hout]
    exact ⟨rfl, rfl⟩
  · intro st out h s s' hcur hcur'
    obtain ⟨s0, hc0, _, _, hout⟩ := hintStep_ok_elim h
    rw [hc0] at hcur
    simp only [Option.some.injEq] at hcur
    rw [← hcur]
    rw [hout] at hcur'
    simp only [Option.some.injEq] at hcur'
    rw [← hcur']
    exact ⟨rfl, rfl⟩
  · intro st p now out h s s' hcur hcur'
    obtain ⟨s0, hc0, _, hout⟩ := pauseStep_ok_elim h
    rw [hc0] at hcur
    simp only [Option.some.injEq] at hcur
    rw [← hcur]
    rw [hout] at hcur'
    simp only [Option.some.injEq] at hcur'
    rw [← hcur']
    have hp := pauseSession_preserves s0 p now
    exact ⟨hp.1, hp.2.1⟩

/-- C1, witness: the invariant evaluated on a concrete reachable state
(start, then one successful ask). -/
theorem question_log_invariant_witness :
    askedSession.questionCount ≤ 20 ∧
    askedSession.questionCount = askedSession.questions.length := by
  have hstart : Reachable { current := some sampleSession } :=
    Reachable.start { current := none } "dog" "animal" "easy" "v1" ["h1", "h2"] "g1" 0
      Reachable.init
  have hask : Reachable { current := some askedSession } :=
    Reachable.ask "Yes" { current := some sampleSession } "Is it alive?"
      ({ current := some askedSession }, "Yes") hstart rfl
  exact question_log_invariant.1 _ hask _ rfl

/-! ## C3: the exact-match path of the guess judges -/

/-- C3, counterexample: for secret "New York" and guess "new york!" the
OpenAI judge does not take the exact-match path — its normalization is only
lowercase-and-trim, so the punctuation difference survives and the verdict
comes from (and varies with) the LLM equivalence call, contrary to the
claimed `correct=true` via normalization alone. -/
theorem guess_judge_punct_counterexample :
    (checkFinalGuess "New York" "new york!" (some false)).correct = false ∧
    (checkFinalGuess "New York" "new york!" (some true)).correct = true := by
  constructor <;> decide

/-- C3, amended: the Gemini judge's correctness flag is exactly the
full-normalization equality (computed before, and independently of, any
LLM consultation), so a guess equal to the secret after normalization gets
`correct=true` via that path alone; the OpenAI judge short-circuits to
`correct=true` without the LLM only under its weaker lowercase-and-trim
normalization. -/
theorem guess_judge_exact_paths :
    (∀ w g fb, (checkFinalGuessGemini w g fb).correct
        = decide (normalizeText w = normalizeText g)) ∧
    (∀ w g j, lowerTrim g = lowerTrim w →
        checkFinalGuess w g j = { correct := true, feedback := winFeedback w }) := by
  constructor
  · intro w g fb
    unfold checkFinalGuessGemini
    cases fb <;> rfl
  · intro w g j h
    unfold checkFinalGuess
    rw [if_pos h]

/-- C3 amended, witness: a casing/whitespace-only difference goes through
the OpenAI exact path even with a denying LLM oracle, and the Gemini judge
accepts the punctuation-differing guess. -/
theorem guess_judge_exact_paths_witness :
    checkFinalGuess "New York" " New York " (some false)
      = { correct := true, feedback := winFeedback "New York" } ∧
    (checkFinalGuessGemini "New York" "new york!" none).correct = true := by
  constructor
  · exact guess_judge_exact_paths.2 "New York" " New York " (some false) (by decide)
  · rw [guess_judge_exact_paths.1 "New York" "new york!" none]
    decide

/-- Rounding an integer divided by one is the identity. -/
theorem jsRound_one (n : Nat) : jsRound n 1 = n := by
  unfold jsRound
  rw [Nat.mul_one, Nat.mul_add_div (by norm_num : (0 : Nat) < 2)]
  simp

/-! ## C8: the aggregated average-questions statistic -/

/-- C8, counterexample: after sessions with question counts 2, 1, 1 the
client reports `averageQuestions = 2`, while the rounded mean of the counts
is `round(4 / 3) = 1` — the incremental update folds the already-rounded
previous average back in, so the reported value is not the rounded mean
over all played sessions. -/
theorem average_questions_counterexample :
    (statsAfter [(false, 2), (false, 1), (false, 1)]).averageQuestions = 2 ∧
    roundedMeanQuestions [(false, 2), (false, 1), (false, 1)] = 1 := by
  constructor <;> decide

/-- C8, amended: `averageQuestions` is the incrementally rounded running
mean — each game end sets it to
`round((previousAverage * previousGamesPlayed + questionCount) / (previousGamesPlayed + 1))`
with the PREVIOUS (already rounded) average — which coincides with the
rounded true mean for the first two sessions, but can drift from it from
the third session on. -/
theorem average_questions_incremental :
    ∀ results, results.length ≤ 2 →
      (statsAfter results).averageQuestions = roundedMeanQuestions results := by
  intro rs h
  match rs with
  | [] => rfl
  | [a] =>
    simp [statsAfter, updateStatsOnGameEnd, defaultStats, roundedMeanQuestions]
  | [a, b] =>
    simp [statsAfter, updateStatsOnGameEnd, defaultStats, roundedMeanQuestions,
      jsRound_one]
  | a :: b :: c :: v => simp at h

/-- C8 amended, witness: for two sessions the incremental value equals the
rounded mean. -/
theorem average_questions_incremental_witness :
    (statsAfter [(true, 3), (false, 4)]).averageQuestions
      = roundedMeanQuestions [(true, 3), (false, 4)] :=
  average_questions_incremental [(true, 3), (false, 4)] (by decide)


/-! ## C9: idempotence of the GuessJudge normalizer

Strategy: characterize the output of `normalizeChars` (all characters are
kept, lowercase-fixed word characters or the single space; no two adjacent
whitespace characters; no whitespace at either end) and show every stage of
the normalizer fixes such lists. -/

theorem toNat_ofNat_valid (n : Nat) (h : n.isValidChar) : (Char.ofNat n).toNat = n := by
  simp [Char.ofNat, h, Char.ofNatAux, Char.toNat, UInt32.toNat, UInt32.ofNat]

theorem toLower_eq_self_of_not_upper {c : Char}
    (h : ¬(c.toNat ≥ 65 ∧ c.toNat ≤ 90)) : c.toLower = c := by
  simp only [Char.toLower]
  rw [if_neg h]

theorem toNat_toLower_of_upper {c : Char}
    (h : c.toNat ≥ 65 ∧ c.toNat ≤ 90) : c.toLower.toNat = c.toNat + 32 := by
  simp only [Char.toLower]
  rw [if_pos h]
  exact toNat_ofNat_valid _ (Or.inl (by omega))

/-- ASCII lowercasing is idempotent. -/
theorem toLower_toLower (c : Char) : c.toLower.toLower = c.toLower := by
  by_cases h : c.toNat ≥ 65 ∧ c.toNat ≤ 90
  · have h2 := toNat_toLower_of_upper h
    apply toLower_eq_self_of_not_upper
    rw [h2]
    omega
  · rw [toLower_eq_self_of_not_upper h, toLower_eq_self_of_not_upper h]

theorem spc_false_of_head?_dropWhile {l : List Char} {c : Char}
    (h : (l.dropWhile isSpc).head? = some c) : isSpc c = false := by
  induction l with
  | nil => simp [List.dropWhile] at h
  | cons a t ih =>
    rw [List.dropWhile_cons] at h
    by_cases hp : isSpc a = true
    · rw [if_pos hp] at h
      exact ih h
    · rw [if_neg hp] at h
      simp only [List.head?_cons, Option.some.injEq] at h
      rw [← h]
      simpa using hp

theorem trimChars_head_not_spc {l : List Char} {c : Char}
    (h : (trimChars l).head? = some c) : isSpc c = false := by
  unfold trimChars at h
  obtain ⟨r, hr⟩ := List.rdropWhile_prefix isSpc (l.dropWhile isSpc)
  have hh : (l.dropWhile isSpc).head? = some c := by
    rw [← hr, List.head?_append, h]
    rfl
  exact spc_false_of_head?_dropWhile hh

theorem trimChars_getLast_not_spc {l : List Char} {c : Char}
    (h : (trimChars l).getLast? = some c) : isSpc c = false := by
  unfold trimChars at h
  have hne : List.rdropWhile isSpc (l.dropWhile isSpc) ≠ [] := by
    intro h0
    rw [h0] at h
    simp at h
  have hlast := List.rdropWhile_last_not isSpc (l.dropWhile isSpc) hne
  rw [List.getLast?_eq_getLast _ hne] at h
  simp only [Option.some.injEq] at h
  rw [← h]
  simpa using hlast

theorem trimChars_eq_self {l : List Char}
    (h1 : ∀ c, l.head? = some c → isSpc c = false)
    (h2 : ∀ c, l.getLast? = some c → isSpc c = false) : trimChars l = l := by
  unfold trimChars
  have hd : l.dropWhile isSpc = l := by
    cases l with
    | nil => rfl
    | cons a t =>
      rw [List.dropWhile_cons, if_neg]
      simp [h1 a rfl]
  rw [hd, List.rdropWhile_eq_self_iff]
  intro hl
  simp [h2 (l.getLast hl) (List.getLast?_eq_getLast l hl)]

theorem trimChars_sublist (l : List Char) : (trimChars l).Sublist l :=
  (( List.rdropWhile_prefix isSpc (l.dropWhile isSpc)).sublist).trans
    ((List.dropWhile_suffix isSpc).sublist)

theorem mem_collapseAux {c : Char} : ∀ (b : Bool) (l : List Char),
    c ∈ collapseAux b l → c = ' ' ∨ (c ∈ l ∧ isSpc c = false) := by
  intro b l
  induction l generalizing b with
  | nil => intro h; simp [collapseAux] at h
  | cons a t ih =>
    intro h
    by_cases hsp : isSpc a = true
    · cases b with
      | true =>
        rw [show collapseAux true (a :: t) = collapseAux true t from by
          simp [collapseAux, hsp]] at h
        rcases ih true h with h1 | ⟨h1, h2⟩
        · exact Or.inl h1
        · exact Or.inr ⟨List.mem_cons_of_mem a h1, h2⟩
      | false =>
        rw [show collapseAux false (a :: t) = ' ' :: collapseAux true t from by
          simp [collapseAux, hsp]] at h
        rcases List.mem_cons.mp h with h1 | h1
        · exact Or.inl h1
        · rcases ih true h1 with h2 | ⟨h2, h3⟩
          · exact Or.inl h2
          · exact Or.inr ⟨List.mem_cons_of_mem a h2, h3⟩
    · rw [show collapseAux b (a :: t) = a :: collapseAux false t from by
        cases b <;> simp [collapseAux, hsp]] at h
      rcases List.mem_cons.mp h with h1 | h1
      · exact Or.inr ⟨h1 ▸ List.mem_cons_self a t, h1 ▸ by simpa using hsp⟩
      · rcases ih false h1 with h2 | ⟨h2, h3⟩
        · exact Or.inl h2
        · exact Or.inr ⟨List.mem_cons_of_mem a h2, h3⟩

theorem head?_collapseAux_true {l : List Char} {c : Char}
    (h : (collapseAux true l).head? = some c) : isSpc c = false := by
  induction l with
  | nil => simp [collapseAux] at h
  | cons a t ih =>
    by_cases hsp : isSpc a = true
    · rw [show collapseAux true (a :: t) = collapseAux true t from by
        simp [collapseAux, hsp]] at h
      exact ih h
    · rw [show collapseAux true (a :: t) = a :: collapseAux false t from by
        simp [collapseAux, hsp]] at h
      simp only [List.head?_cons, Option.some.injEq] at h
      rw [← h]
      simpa using hsp

theorem chain'_collapseAux : ∀ (b : Bool) (l : List Char),
    List.Chain' (fun x y => isSpc x = false ∨ isSpc y = false) (collapseAux b l) := by
  intro b l
  induction l generalizing b with
  | nil => simp [collapseAux]
  | cons a t ih =>
    by_cases hsp : isSpc a = true
    · cases b with
      | true =>
        rw [show collapseAux true (a :: t) = collapseAux true t from by
          simp [collapseAux, hsp]]
        exact ih true
      | false =>
        rw [show collapseAux false (a :: t) = ' ' :: collapseAux true t from by
          simp [collapseAux, hsp]]
        rw [List.chain'_cons']
        constructor
        · intro y hy
          exact Or.inr (head?_collapseAux_true hy)
        · exact ih true
    · rw [show collapseAux b (a :: t) = a :: collapseAux false t from by
        cases b <;> simp [collapseAux, hsp]]
      rw [List.chain'_cons']
      exact ⟨fun y _ => Or.inl (by simpa using hsp), ih false⟩

theorem collapseAux_false_eq_self : ∀ l : List Char,
    List.Chain' (fun x y => isSpc x = false ∨ isSpc y = false) l →
    (∀ c ∈ l, isSpc c = true → c = ' ') → collapseAux false l = l := by
  intro l
  induction l with
  | nil => intro _ _; rfl
  | cons a t ih =>
    intro hch hc
    have hcc := List.chain'_cons'.mp hch
    by_cases hsp : isSpc a = true
    · have ha : a = ' ' := hc a (List.mem_cons_self a t) hsp
      have htt : collapseAux false t = t :=
        ih hcc.2 (fun c hct => hc c (List.mem_cons_of_mem a hct))
      have htrue : collapseAux true t = t := by
        cases t with
        | nil => rfl
        | cons d r =>
          have hd : isSpc d = false := by
            rcases hcc.1 d rfl with h | h
            · exact absurd h (by simp [hsp])
            · exact h
          rw [show collapseAux true (d :: r) = d :: collapseAux false r from by
            simp [collapseAux, hd]]
          have htt2 := htt
          rw [show collapseAux false (d :: r) = d :: collapseAux false r from by
            simp [collapseAux, hd]] at htt2
          exact htt2
      rw [show collapseAux false (a :: t) = ' ' :: collapseAux true t from by
        simp [collapseAux, hsp]]
      rw [htrue, ha]
    · rw [show collapseAux false (a :: t) = a :: collapseAux false t from by
        simp [collapseAux, hsp]]
      rw [ih hcc.2 (fun c hct => hc c (List.mem_cons_of_mem a hct))]

theorem chain'_trimChars {R : Char → Char → Prop} {l : List Char}
    (h : List.Chain' R l) : List.Chain' R (trimChars l) := by
  unfold trimChars
  exact List.Chain'.prefix (h.suffix (List.dropWhile_suffix isSpc))
    ( List.rdropWhile_prefix isSpc (l.dropWhile isSpc))

theorem map_id_of_mem {α : Type} {f : α → α} :
    ∀ {l : List α}, (∀ a ∈ l, f a = a) → l.map f = l := by
  intro l h
  induction l with
  | nil => rfl
  | cons a t ih =>
    simp only [List.map_cons]
    rw [h a (List.mem_cons_self a t), ih (fun b hb => h b (List.mem_cons_of_mem a hb))]

/-- The shape of `normalizeChars` output: kept, lowercase-fixed characters
whose only whitespace is a single interior space at a time, and no
whitespace at either end. -/
theorem normalizeChars_canon (l : List Char) :
    (∀ c ∈ normalizeChars l,
        keepChar c = true ∧ c.toLower = c ∧ (isSpc c = true → c = ' ')) ∧
    List.Chain' (fun x y => isSpc x = false ∨ isSpc y = false) (normalizeChars l) ∧
    (∀ c, (normalizeChars l).head? = some c → isSpc c = false) ∧
    (∀ c, (normalizeChars l).getLast? = some c → isSpc c = false) := by
  refine ⟨?_, ?_, fun c h => trimChars_head_not_spc h, fun c h => trimChars_getLast_not_spc h⟩
  · intro c hc
    have hc2 : c ∈ collapseSpaces ((trimChars (l.map Char.toLower)).filter keepChar) :=
      (trimChars_sublist _).subset hc
    unfold collapseSpaces at hc2
    rcases mem_collapseAux false _ hc2 with h | ⟨hmem, hnsp⟩
    · subst h
      exact ⟨by decide, by decide, fun _ => rfl⟩
    · have hkeep := (List.mem_filter.mp hmem).2
      have hmem2 : c ∈ trimChars (l.map Char.toLower) := (List.mem_filter.mp hmem).1
      have hmem3 : c ∈ l.map Char.toLower := (trimChars_sublist _).subset hmem2
      obtain ⟨d, _, hd⟩ := List.mem_map.mp hmem3
      refine ⟨hkeep, ?_, ?_⟩
      · rw [← hd]
        exact toLower_toLower d
      · intro hsp
        exact absurd hsp (by simp [hnsp])
  · exact chain'_trimChars (chain'_collapseAux false _)

/-- Every stage of the normalizer fixes a list of the canonical shape. -/
theorem normalizeChars_fixed {l : List Char}
    (hc : ∀ c ∈ l, keepChar c = true ∧ c.toLower = c ∧ (isSpc c = true → c = ' '))
    (hch : List.Chain' (fun x y => isSpc x = false ∨ isSpc y = false) l)
    (hh : ∀ c, l.head? = some c → isSpc c = false)
    (hl : ∀ c, l.getLast? = some c → isSpc c = false) :
    normalizeChars l = l := by
  unfold normalizeChars
  have hmap : l.map Char.toLower = l := map_id_of_mem (fun a ha => (hc a ha).2.1)
  rw [hmap]
  have htrim : trimChars l = l := trimChars_eq_self hh hl
  rw [htrim]
  have hfil : l.filter keepChar = l := List.filter_eq_self.mpr (fun a ha => (hc a ha).1)
  rw [hfil]
  have hcol : collapseSpaces l = l := by
    unfold collapseSpaces
    exact collapseAux_false_eq_self l hch (fun c hcm hsp => (hc c hcm).2.2 hsp)
  rw [hcol, htrim]

/-- C9: the GuessJudge text normalizer is idempotent — normalizing an
already-normalized string changes nothing. -/
theorem normalizeText_idempotent :
    ∀ s : String, normalizeText (normalizeText s) = normalizeText s := by
  intro s
  have h := normalizeChars_canon s.data
  have h2 := normalizeChars_fixed h.1 h.2.1 h.2.2.1 h.2.2.2
  unfold normalizeText
  exact congrArg String.mk h2

end TwentyQ